import Mathlib

/-!
Verification of the QuizLive multiplayer quiz application and the
BlocksKids robot-walker found in this repository.

The repository contains near-duplicate versions of the quiz client:
`src/src/App.jsx` and `src/unnamed/part_000` (which carry an answer lock
and try/catch error handling) and `src/unnamed/part_001` (which embeds a
second quiz client without the lock and without try/catch, together with
the BlocksKids interpreter).  `src/unnamed/part_003` carries the
BlocksKids interpreter without repeat support.

Shallow embedding conventions: the JSON room document synchronized
through the realtime database is a `Room` record whose maps are
association lists with string keys; a multi-path `update` call is a list
of `RoomUpdate` path writes applied in insertion order; JavaScript
exceptions are `Except`.
-/

/-! ## Quiz data model (`src/src/App.jsx`) -/

/-- Room state tag: `"lobby" | "question" | "finished"`. -/
inductive QState
  | lobby
  | question
  | finished
  deriving DecidableEq, Repr

/-- A player node `players/<pid>`, written by `joinRoom` as
`{ name, score: 0, connected: true }`. -/
structure Player where
  name : String
  score : Nat
  connected : Bool
  deriving DecidableEq, Repr

/-- One quiz question: choice texts, the correct-choice index `answer`,
and the per-question time budget. -/
structure Question where
  qid : Nat
  text : String
  choices : List String
  answer : Nat
  time : Nat
  deriving DecidableEq, Repr

/-- A quiz definition: title plus ordered question list. -/
structure Quiz where
  id : String
  title : String
  questions : List Question
  deriving DecidableEq, Repr

/-- The externally synchronized room record at `rooms/<id>`. -/
structure Room where
  metaTitle : String
  quiz : Quiz
  state : QState
  currentIndex : Nat
  players : List (String × Player)
  answers : List (String × Nat)
  deriving DecidableEq, Repr

/-- `SAMPLE_QUIZ` from `src/src/App.jsx` (Arduino & Sensor, 15 questions). -/
def SAMPLE_QUIZ : Quiz :=
  { id := "arduino-sensors-1"
    title := "Arduino & Sensor — Kuis (15 Soal)"
    questions :=
      [ { qid := 1, text := "Pin Arduino manakah yang biasanya digunakan untuk input sensor analog?", choices := ["Pin Digital PWM", "Pin Analog (A0-A5)", "Pin Ground", "Pin VCC"], answer := 1, time := 20 }
      , { qid := 2, text := "Sensor apa yang digunakan untuk mengukur suhu?", choices := ["Sensor Ultrasonik", "Sensor PIR", "DHT11/DHT22", "IR Receiver"], answer := 2, time := 18 }
      , { qid := 3, text := "Sensor mana yang mengukur jarak menggunakan gelombang suara?", choices := ["Sensor Cahaya", "Sensor Ultrasonik", "Sensor Gas", "Sensor Fleksibel"], answer := 1, time := 18 }
      , { qid := 4, text := "Modul apa yang digunakan untuk mendeteksi gerakan manusia?", choices := ["LDR", "Sensor PIR", "MQ-2", "BMP180"], answer := 1, time := 15 }
      , { qid := 5, text := "Apa fungsi potensiometer ketika digunakan pada Arduino?", choices := ["Output digital on/off", "Menghasilkan tegangan analog yang dapat diubah", "Mengukur suhu", "Mengirim sinyal nirkabel"], answer := 1, time := 15 }
      , { qid := 6, text := "Sensor apa yang digunakan untuk mendeteksi intensitas cahaya?", choices := ["Sensor Ultrasonik", "LDR (Light Dependent Resistor)", "DHT11", "HC-SR04"], answer := 1, time := 15 }
      , { qid := 7, text := "Bagaimana sensor gas MQ mendeteksi adanya gas?", choices := ["Mengirim sinyal HIGH ketika ada gas", "Mengeluarkan tegangan analog sesuai konsentrasi gas", "Mematikan Arduino", "Mengubah alamat I2C"], answer := 1, time := 20 }
      , { qid := 8, text := "Protokol komunikasi apa yang digunakan banyak sensor digital seperti modul I2C?", choices := ["PWM", "SPI", "I2C", "UART"], answer := 2, time := 15 }
      , { qid := 9, text := "Apa fungsi resistor pull-down saat membaca tombol?", choices := ["Memberikan kondisi LOW saat tidak ditekan", "Menaikkan tegangan", "Menghilangkan noise", "Memberi daya pada tombol"], answer := 0, time := 15 }
      , { qid := 10, text := "Modul mana yang digunakan untuk mengukur tekanan udara?", choices := ["BMP180/BMP280", "Sensor PIR", "Servo", "Sensor Ultrasonik"], answer := 0, time := 18 }
      , { qid := 11, text := "Apa arti PWM dan mengapa digunakan?", choices := ["Pulse Width Modulation — mensimulasikan output analog dari pin digital", "Pulse Width Modulation — mengukur suhu", "Peripheral Wire Module — untuk sensor", "Power Watt Management — untuk baterai"], answer := 0, time := 20 }
      , { qid := 12, text := "Sensor apa yang dapat mendeteksi api atau nyala?", choices := ["Sensor Api (berbasis IR)", "Sensor Kelembaban Tanah", "LDR", "DHT11"], answer := 0, time := 15 }
      , { qid := 13, text := "Berapa tegangan umum untuk sensor Arduino UNO?", choices := ["3.3V saja", "12V", "5V (atau 3.3V untuk beberapa modul)", "24V"], answer := 2, time := 12 }
      , { qid := 14, text := "Sensor apa yang digunakan untuk mengukur kelembaban tanah?", choices := ["Sensor Kelembaban Tanah", "HC-SR04", "MQ-7", "Sensor PIR"], answer := 0, time := 15 }
      , { qid := 15, text := "Perangkat apa yang mengubah gerakan rotasi menjadi posisi sudut untuk umpan balik?", choices := ["Sensor Ultrasonik", "Encoder", "DHT22", "Relay"], answer := 1, time := 18 }
      ] }

/-! ## Database-map primitives

Firebase maps cannot hold duplicate keys; they are modelled as
association lists.  `lookupKey` models reading `map[key]`. -/

/-- Read `m[k]` from a JSON map. -/
def lookupKey (k : String) : List (String × α) → Option α
  | [] => none
  | (k', v) :: rest => if k' = k then some v else lookupKey k rest

/-- Number of entries of `m` with key `k` (always 0 or 1 in a real map). -/
def countKey (k : String) : List (String × α) → Nat
  | [] => 0
  | (k', _) :: rest => (if k' = k then 1 else 0) + countKey k rest

/-- Firebase `set(ref(.../answers/<pid>), choice)`: replaces the value at
key `k`, creating the entry when absent. -/
def dbSet : List (String × Nat) → String → Nat → List (String × Nat)
  | [], k, v => [(k, v)]
  | (k', v') :: rest, k, v =>
      if k' = k then (k, v) :: rest else (k', v') :: dbSet rest k v

/-- A player node materialized by a write to `players/<pid>/score` when
`players/<pid>` did not exist: Firebase creates the node holding only the
score; the absent `name`/`connected` fields are modelled by defaults. -/
def scoreOnlyPlayer (v : Nat) : Player :=
  { name := "", score := v, connected := false }

/-- Firebase write to the path `players/<pid>/score`. -/
def setScore : List (String × Player) → String → Nat → List (String × Player)
  | [], k, v => [(k, scoreOnlyPlayer v)]
  | (k', p) :: rest, k, v =>
      if k' = k then (k, { p with score := v }) :: rest
      else (k', p) :: setScore rest k v

/-- `(roomData.players && roomData.players[pid] && roomData.players[pid].score) || 0`. -/
def scoreOfList (ps : List (String × Player)) (pid : String) : Nat :=
  match lookupKey pid ps with
  | some p => p.score
  | none => 0

/-- Score of `pid` as read by `nextQuestion` (missing player counts as 0). -/
def scoreOf (r : Room) (pid : String) : Nat :=
  scoreOfList r.players pid

/-! ## Room operations (`src/src/App.jsx`) -/

/-- One path write inside a multi-path `update(rRef, batch)` call. -/
inductive RoomUpdate
  | playerScore (pid : String) (v : Nat)
  | setCurrentIndex (v : Nat)
  | setAnswers (v : List (String × Nat))
  | setState (v : QState)
  deriving DecidableEq, Repr

/-- Apply one path write to the room record. -/
def applyUpdate (r : Room) : RoomUpdate → Room
  | RoomUpdate.playerScore pid v => { r with players := setScore r.players pid v }
  | RoomUpdate.setCurrentIndex v => { r with currentIndex := v }
  | RoomUpdate.setAnswers v => { r with answers := v }
  | RoomUpdate.setState v => { r with state := v }

/-- Firebase `update(rRef, batch)`: all listed paths are written, every
other path is untouched. -/
def applyBatch (r : Room) (b : List RoomUpdate) : Room :=
  b.foldl applyUpdate r

/-- The fresh room written by `createRoom`:
`{ meta: { title }, quiz: SAMPLE_QUIZ, state: "lobby", currentIndex: 0, players: {}, answers: {} }`. -/
def createRoomRoom : Room :=
  { metaTitle := SAMPLE_QUIZ.title
    quiz := SAMPLE_QUIZ
    state := QState.lobby
    currentIndex := 0
    players := []
    answers := [] }

/-- The batch written by `startQuiz`:
`update(rRef, { state: "question", currentIndex: 0, answers: {} })`.
`startQuiz` performs no check of the room's current state. -/
def startQuizUpdates : List RoomUpdate :=
  [ RoomUpdate.setState QState.question
  , RoomUpdate.setCurrentIndex 0
  , RoomUpdate.setAnswers [] ]

/-- Effect of calling `startQuiz` on a room. -/
def startQuizRoom (r : Room) : Room :=
  applyBatch r startQuizUpdates

/-- The `players/<pid>/score` entries `nextQuestion` places into its batch:
one per submitted answer equal to `q.answer`, holding the old score plus 100. -/
def correctScoreUpdates (r : Room) (q : Question) : List (String × Nat) :=
  r.answers.filterMap fun pc =>
    if pc.2 = q.answer then some (pc.1, scoreOf r pc.1 + 100) else none

/-- The batch written by `nextQuestion` in `src/src/App.jsx` lines 205-231.
`q = quiz.questions[idx]` has no `if (!q)` guard there: when `idx` is past
the last question and `answers` is non-empty, evaluating `choice === q.answer`
throws a `TypeError`, the `catch` swallows it, and nothing is written
(result `none`); with empty `answers` the callback never runs and the
batch is still written. -/
def nextQuestionUpdates (r : Room) : Option (List RoomUpdate) :=
  match r.quiz.questions.get? r.currentIndex with
  | some q =>
      some ((correctScoreUpdates r q).map (fun pv => RoomUpdate.playerScore pv.1 pv.2) ++
        [ RoomUpdate.setCurrentIndex (r.currentIndex + 1)
        , RoomUpdate.setAnswers []
        , RoomUpdate.setState
            (if r.quiz.questions.length ≤ r.currentIndex + 1 then QState.finished
             else QState.question) ])
  | none =>
      if r.answers.isEmpty then
        some [ RoomUpdate.setCurrentIndex (r.currentIndex + 1)
             , RoomUpdate.setAnswers []
             , RoomUpdate.setState
                 (if r.quiz.questions.length ≤ r.currentIndex + 1 then QState.finished
                  else QState.question) ]
      else none

/-- Effect of calling `nextQuestion` on a room (no write when the
`TypeError` path is taken). -/
def nextRoom (r : Room) : Room :=
  match nextQuestionUpdates r with
  | some b => applyBatch r b
  | none => r

/-- Rooms reachable from `createRoom` by the operations the application
offers (`startQuiz`, `nextQuestion`). -/
inductive Reachable : Room → Prop
  | created : Reachable createRoomRoom
  | start {r : Room} : Reachable r → Reachable (startQuizRoom r)
  | next {r : Room} : Reachable r → Reachable (nextRoom r)

/-- Order of the state tags in the intended lobby → question → finished flow. -/
def stateRank : QState → Nat
  | QState.lobby => 0
  | QState.question => 1
  | QState.finished => 2

/-! ## Quiz client variants

`submitAnswer` from `src/src/App.jsx` lines 328-360 (the `part_000`
variant is identical for these paths), and the `part_001` variant
(lines 724-731) which has no local answer lock.  A JavaScript falsy
`roomId`/`playerId` is modelled by the empty string. -/

/-- `submitAnswer(choiceIndex)` of `src/src/App.jsx`: first the local
lock (`if (localAnswer !== null) return`), then the joined-room guard
(alert and return), then `setLocalAnswer` plus the database write to
`rooms/<roomId>/answers/<playerId>`.  Returns the new
`(localAnswer, answers)` pair. -/
def submitAnswer (inited : Bool) (roomId playerId : String)
    (localAnswer : Option Nat) (answers : List (String × Nat))
    (choiceIndex : Nat) : Option Nat × List (String × Nat) :=
  if localAnswer ≠ none then (localAnswer, answers)
  else if inited = false ∨ roomId = "" ∨ playerId = "" then (localAnswer, answers)
  else (some choiceIndex, dbSet answers playerId choiceIndex)

/-- `submitAnswer(choice)` of the quiz client embedded in
`src/unnamed/part_001` lines 724-731: only the joined-room guard, no
check of `localAnswer`; the write happens and then
`setLocalAnswer(choice)`. -/
def submitAnswerV1 (inited : Bool) (roomId playerId : String)
    (localAnswer : Option Nat) (answers : List (String × Nat))
    (choice : Nat) : Option Nat × List (String × Nat) :=
  if inited = false ∨ roomId = "" ∨ playerId = "" then (localAnswer, answers)
  else (some choice, dbSet answers playerId choice)

/-! ## Error-handling models

Failure of the external service is an oracle `FbWorld`; an operation
returns `Except.error` exactly when a rejected promise escapes it
uncaught, and `Except.ok reports` with the console/alert output it
produced otherwise. -/

/-- Which external-service steps fail during one operation. -/
structure FbWorld where
  importFails : Bool
  writeFails : Bool
  deriving DecidableEq, Repr

/-- Console or alert output of an operation. -/
inductive Report
  | consoleLog (tag : String)
  | alertDialog (msg : String)
  deriving DecidableEq, Repr

/-- True when no exception escaped the operation. -/
def caught : Except String (List Report) → Bool
  | Except.ok _ => true
  | Except.error _ => false

/-- `useFirebase().init` of `src/src/App.jsx` lines 50-72: the whole body
is inside `try`; on failure it logs `"Firebase init error"` and returns
`{}` (modelled as ready flag `false`). -/
def initApp (w : FbWorld) : Except String (Bool × List Report) :=
  if w.importFails then Except.ok (false, [Report.consoleLog "Firebase init error"])
  else Except.ok (true, [])

/-- `useFirebase().init` of the quiz client in `src/unnamed/part_001`
lines 579-598: no `try`/`catch`; a failing import or initialization
rejects the promise and escapes. -/
def initV1 (w : FbWorld) : Except String (Bool × List Report) :=
  if w.importFails then Except.error "Firebase init error"
  else Except.ok (true, [])

/-- `createRoom` of `src/src/App.jsx` lines 150-162: alert when Firebase
is not ready, otherwise the write is inside `try` and a failure is
logged via `console.error`. -/
def createRoomApp (w : FbWorld) (inited : Bool) : Except String (List Report) :=
  if inited = false then Except.ok [Report.alertDialog "Firebase belum siap"]
  else if w.writeFails then Except.ok [Report.consoleLog "createRoom error"]
  else Except.ok []

/-- `joinRoom` of `src/src/App.jsx` lines 164-178: alerts on a missing
code or name, and a failed write (e.g. missing room) is caught, logged
and surfaced via `alert("Gagal gabung: cek kode room")`. -/
def joinRoomApp (w : FbWorld) (inited : Bool) (code name : String) :
    Except String (List Report) :=
  if inited = false then Except.ok [Report.alertDialog "Firebase belum siap"]
  else if code = "" ∨ name = "" then Except.ok [Report.alertDialog "Masukkan kode room dan nama"]
  else if w.writeFails then
    Except.ok [Report.consoleLog "join error", Report.alertDialog "Gagal gabung: cek kode room"]
  else Except.ok []

/-- `startQuiz` of `src/src/App.jsx` lines 196-203: guarded return, then
the write inside `try` with `console.error` on failure. -/
def startQuizApp (w : FbWorld) (inited : Bool) (roomId : String) :
    Except String (List Report) :=
  if inited = false ∨ roomId = "" then Except.ok []
  else if w.writeFails then Except.ok [Report.consoleLog "startQuiz error"]
  else Except.ok []

/-- `nextQuestion` of `src/src/App.jsx` lines 205-231: guarded return,
then everything (scoring and the update) inside `try` with
`console.error` on failure. -/
def nextQuestionApp (w : FbWorld) (inited : Bool) (roomId : String)
    (hasRoomData : Bool) : Except String (List Report) :=
  if inited = false ∨ roomId = "" ∨ hasRoomData = false then Except.ok []
  else if w.writeFails then Except.ok [Report.consoleLog "nextQuestion error"]
  else Except.ok []

/-- `createRoom` of the quiz client in `src/unnamed/part_001` lines
668-685: no `try`/`catch` around `await set(roomRef, initial)`; a write
failure escapes the handler uncaught. -/
def createRoomV1 (w : FbWorld) (inited : Bool) : Except String (List Report) :=
  if inited = false then Except.ok []
  else if w.writeFails then Except.error "set failed"
  else Except.ok []

/-! ## BlocksKids interpreter

`src/unnamed/part_001` lines 36-37 fix `cols = 5`, `rows = 5`; the robot
cell is `posIndex = r * cols + c`.  `executeSingleCmd` (lines 252-297)
computes the clamped destination and hands it to an update callback;
`executePictobloxCommands` (lines 202-303) drives it, and its `repeat`
branch (lines 222-239) re-runs the previous command `cmd.value || 1`
times with the callback `() => { posIndex = getPosIndex(); }`, which
discards the computed destination.  `src/unnamed/part_003` lines 157-227
inline the same movement arithmetic without repeat support. -/

/-- Grid width (`const cols = 5`). -/
def cols : Nat := 5

/-- Grid height (`const rows = 5`). -/
def rows : Nat := 5

/-- The six command kinds produced by `programToCommands`. -/
inductive PCmd
  | forward
  | back
  | left
  | right
  | jump
  | wait
  | repeat (value : Nat)
  deriving DecidableEq, Repr

/-- Destination cell computed by `executeSingleCmd` for one command:
`forward`/`back` clamp the row with `Math.max(0, r - 1)` /
`Math.min(rows - 1, r + 1)`, `left`/`right` clamp the column likewise;
`jump`, `wait` and any other command leave the cell unchanged. -/
def execSingleCmdPos (cmd : PCmd) (posIndex : Nat) : Nat :=
  match cmd with
  | PCmd.forward => max 0 (posIndex / cols - 1) * cols + posIndex % cols
  | PCmd.back => min (rows - 1) (posIndex / cols + 1) * cols + posIndex % cols
  | PCmd.left => (posIndex / cols) * cols + max 0 (posIndex % cols - 1)
  | PCmd.right => (posIndex / cols) * cols + min (cols - 1) (posIndex % cols + 1)
  | _ => posIndex

/-- Row of a cell (`Math.floor(posIndex / cols)`). -/
def rowOf (posIndex : Nat) : Nat := posIndex / cols

/-- Column of a cell (`posIndex % cols`). -/
def colOf (posIndex : Nat) : Nat := posIndex % cols

/-- Position effect of the `repeat` loop in `part_001` lines 231-237:
each of the `n` iterations computes `executeSingleCmd`'s destination from
the current `posIndex`, but the callback `() => { posIndex = getPosIndex(); }`
assigns `posIndex` to itself, so the computed destination is discarded. -/
def repeatLoop (prevCmd : PCmd) : Nat → Nat → Nat
  | 0, posIndex => posIndex
  | n + 1, posIndex => repeatLoop prevCmd n ((fun _ => posIndex) (execSingleCmdPos prevCmd posIndex))

/-- One iteration of the command loop of `executePictobloxCommands` in
`part_001`: state is `(posIndex, commands[i-1])`.  A `repeat` at position
0 only logs; a later `repeat` runs `repeatLoop` for `cmd.value || 1`
iterations; every other command moves via `executeSingleCmd` whose
callback stores the new index. -/
def stepV1 : (Nat × Option PCmd) → PCmd → (Nat × Option PCmd)
  | (posIndex, prev), cmd =>
    match cmd with
    | PCmd.repeat value =>
        match prev with
        | none => (posIndex, some cmd)
        | some prevCmd => (repeatLoop prevCmd (max value 1) posIndex, some cmd)
    | _ => (execSingleCmdPos cmd posIndex, some cmd)

/-- Final cell of `executePictobloxCommands` in `part_001`, starting from
`robotCell = start`. -/
def runCmdsV1 (cmds : List PCmd) (start : Nat) : Nat :=
  (cmds.foldl stepV1 (start, none)).1

/-- Every cell the robot occupies while `part_001`'s
`executePictobloxCommands` runs (start cell included). -/
def execTraceV1 (cmds : List PCmd) (start : Nat) : List Nat :=
  (cmds.scanl stepV1 (start, none)).map Prod.fst

/-- Every cell the robot occupies while `part_003`'s
`executePictobloxCommands` runs: the same movement arithmetic applied
directly, with no repeat branch (an unknown kind falls into the final
`else` and does not move). -/
def execTraceV3 (cmds : List PCmd) (start : Nat) : List Nat :=
  cmds.scanl (fun posIndex cmd => execSingleCmdPos cmd posIndex) start

/-! ## Lemmas: score writes on the players map -/

/-- After writing `players/<k>/score = v`, reading `k`'s score gives `v`. -/
theorem scoreOfList_setScore_same (ps : List (String × Player)) (k : String) (v : Nat) :
    scoreOfList (setScore ps k v) k = v := by
  induction ps with
  | nil => simp [setScore, scoreOfList, lookupKey, scoreOnlyPlayer]
  | cons hd tl ih =>
      obtain ⟨k', p⟩ := hd
      by_cases hk : k' = k
      · subst hk
        simp [setScore, scoreOfList, lookupKey]
      · simp only [setScore, if_neg hk]
        simpa [scoreOfList, lookupKey, hk] using ih

/-- Writing `players/<k>/score` does not touch any other key. -/
theorem lookupKey_setScore_other (ps : List (String × Player)) (k pid : String) (v : Nat)
    (h : k ≠ pid) : lookupKey pid (setScore ps k v) = lookupKey pid ps := by
  induction ps with
  | nil => simp [setScore, lookupKey, h]
  | cons hd tl ih =>
      obtain ⟨k', p⟩ := hd
      by_cases hk : k' = k
      · subst hk
        simp [setScore, lookupKey, h]
      · simp [setScore, lookupKey, hk, ih]

/-- Writing any score keeps every existing player's name and connected flag. -/
theorem lookupKey_setScore_preserves (ps : List (String × Player)) (k pid : String) (v : Nat)
    (p : Player) (h : lookupKey pid ps = some p) :
    ∃ p', lookupKey pid (setScore ps k v) = some p' ∧
      p'.name = p.name ∧ p'.connected = p.connected := by
  induction ps with
  | nil => simp [lookupKey] at h
  | cons hd tl ih =>
      obtain ⟨k', q⟩ := hd
      by_cases hk : k' = k
      · subst hk
        by_cases hp : k' = pid
        · subst hp
          simp only [lookupKey, if_pos rfl] at h
          exact ⟨{ q with score := v }, by simp [setScore, lookupKey], by simp [← Option.some_inj.mp h], by simp [← Option.some_inj.mp h]⟩
        · simp only [lookupKey, if_neg hp] at h
          exact ⟨p, by simp [setScore, lookupKey, hp, h], rfl, rfl⟩
      · by_cases hp : k' = pid
        · subst hp
          simp only [lookupKey, if_pos rfl] at h
          exact ⟨q, by simp [setScore, lookupKey, hk, ← Option.some_inj.mp h], by simp [← Option.some_inj.mp h], by simp [← Option.some_inj.mp h]⟩
        · simp only [lookupKey, if_neg hp] at h
          obtain ⟨p', h1, h2, h3⟩ := ih h
          exact ⟨p', by simp [setScore, lookupKey, hk, hp, h1], h2, h3⟩

/-- Reading a score after a sequence of score writes whose written values
are determined by the key alone: keys that were written read back the
determined value, all other keys are unchanged. -/
theorem foldl_setScore_scoreOfList (F : String → Nat) (l : List (String × Nat))
    (hF : ∀ pv ∈ l, pv.2 = F pv.1) (ps : List (String × Player)) (pid : String) :
    scoreOfList (l.foldl (fun acc pv => setScore acc pv.1 pv.2) ps) pid =
      if pid ∈ l.map Prod.fst then F pid else scoreOfList ps pid := by
  induction l generalizing ps with
  | nil => simp
  | cons hd tl ih =>
      obtain ⟨k, v⟩ := hd
      have hv : v = F k := hF (k, v) (List.mem_cons_self _ _)
      have htl : ∀ pv ∈ tl, pv.2 = F pv.1 := fun pv hpv => hF pv (List.mem_cons_of_mem _ hpv)
      simp only [List.foldl_cons]
      rw [ih htl]
      by_cases hmem : pid ∈ tl.map Prod.fst
      · simp [hmem]
      · by_cases hpk : pid = k
        · subst hpk
          simp [hmem, hv, scoreOfList_setScore_same]
        · have : k ≠ pid := fun h => hpk h.symm
          simp only [scoreOfList, lookupKey_setScore_other ps k pid v this]
          simp [hmem, hpk, scoreOfList]

/-- A sequence of score writes keeps every existing player's name and
connected flag. -/
theorem foldl_setScore_preserves (l : List (String × Nat)) (ps : List (String × Player))
    (pid : String) (p : Player) (h : lookupKey pid ps = some p) :
    ∃ p', lookupKey pid (l.foldl (fun acc pv => setScore acc pv.1 pv.2) ps) = some p' ∧
      p'.name = p.name ∧ p'.connected = p.connected := by
  induction l generalizing ps p with
  | nil => exact ⟨p, h, rfl, rfl⟩
  | cons hd tl ih =>
      obtain ⟨k, v⟩ := hd
      obtain ⟨p', h1, h2, h3⟩ := lookupKey_setScore_preserves ps k pid v p h
      obtain ⟨p'', h1', h2', h3'⟩ := ih (setScore ps k v) p' h1
      exact ⟨p'', by simpa using h1', h2'.trans h2, h3'.trans h3⟩

/-! ## Lemmas: the batch written by `nextQuestion` -/

/-- A batch consisting only of `players/<pid>/score` writes folds the
writes over the players map and leaves every other room field alone. -/
theorem applyBatch_scoreMap (l : List (String × Nat)) (r : Room) :
    applyBatch r (l.map fun pv => RoomUpdate.playerScore pv.1 pv.2) =
      { r with players := l.foldl (fun acc pv => setScore acc pv.1 pv.2) r.players } := by
  induction l generalizing r with
  | nil => simp [applyBatch]
  | cons hd tl ih =>
      simp only [List.map_cons, applyBatch, List.foldl_cons] at *
      rw [show applyUpdate r (RoomUpdate.playerScore hd.1 hd.2) =
            { r with players := setScore r.players hd.1 hd.2 } from rfl]
      exact ih _

/-- Splitting a batch at an append. -/
theorem applyBatch_append (r : Room) (a b : List RoomUpdate) :
    applyBatch r (a ++ b) = applyBatch (applyBatch r a) b :=
  List.foldl_append _ _ _ _

/-- `nextQuestion` when the active question exists: the resulting room
explicitly.  `q` is `quiz.questions[idx]`. -/
theorem nextRoom_eq_of_get (r : Room) (q : Question)
    (hq : r.quiz.questions.get? r.currentIndex = some q) :
    nextRoom r =
      { r with
        players := (correctScoreUpdates r q).foldl
          (fun acc pv => setScore acc pv.1 pv.2) r.players
        currentIndex := r.currentIndex + 1
        answers := []
        state := if r.quiz.questions.length ≤ r.currentIndex + 1 then QState.finished
                 else QState.question } := by
  unfold nextRoom nextQuestionUpdates
  rw [hq]
  simp only []
  rw [applyBatch_append, applyBatch_scoreMap]
  rfl

/-- `nextQuestion` past the last question with an empty answers map: the
update is still written. -/
theorem nextRoom_eq_of_none_empty (r : Room)
    (hq : r.quiz.questions.get? r.currentIndex = none)
    (ha : r.answers.isEmpty = true) :
    nextRoom r =
      { r with
        currentIndex := r.currentIndex + 1
        answers := []
        state := if r.quiz.questions.length ≤ r.currentIndex + 1 then QState.finished
                 else QState.question } := by
  unfold nextRoom nextQuestionUpdates
  rw [hq]
  simp only [ha, if_pos]
  rfl

/-- `nextQuestion` past the last question with a non-empty answers map:
`choice === q.answer` throws, the `catch` swallows it, nothing is written. -/
theorem nextRoom_eq_of_none_nonempty (r : Room)
    (hq : r.quiz.questions.get? r.currentIndex = none)
    (ha : r.answers.isEmpty = false) :
    nextRoom r = r := by
  unfold nextRoom nextQuestionUpdates
  rw [hq]
  simp [ha]

/-- Every score entry in `nextQuestion`'s batch carries the submitting
player's old score plus 100. -/
theorem correctScoreUpdates_val (r : Room) (q : Question) :
    ∀ pv ∈ correctScoreUpdates r q, pv.2 = scoreOf r pv.1 + 100 := by
  intro pv hpv
  rcases List.mem_filterMap.mp hpv with ⟨a, _, hfa⟩
  by_cases hc : a.2 = q.answer
  · rw [if_pos hc] at hfa
    cases hfa
    rfl
  · rw [if_neg hc] at hfa
    cases hfa

/-- A player gets a score entry in `nextQuestion`'s batch exactly when one
of their submitted answers equals the correct-choice index. -/
theorem mem_keys_correctScoreUpdates (r : Room) (q : Question) (pid : String) :
    pid ∈ (correctScoreUpdates r q).map Prod.fst ↔
      ∃ c, (pid, c) ∈ r.answers ∧ c = q.answer := by
  unfold correctScoreUpdates
  constructor
  · intro h
    rcases List.mem_map.mp h with ⟨pv, hpv, hfst⟩
    rcases List.mem_filterMap.mp hpv with ⟨a, ha, hfa⟩
    by_cases hc : a.2 = q.answer
    · rw [if_pos hc] at hfa
      cases hfa
      exact ⟨a.2, by simpa [← hfst] using ha, hc⟩
    · rw [if_neg hc] at hfa
      cases hfa
  · rintro ⟨c, hmem, hc⟩
    apply List.mem_map.mpr
    refine ⟨(pid, scoreOf r pid + 100), ?_, rfl⟩
    apply List.mem_filterMap.mpr
    exact ⟨(pid, c), hmem, by simp [hc]⟩

/-- C1: when the host advances with `nextQuestion`, every player whose
submitted answer for the active question equals that question's
correct-choice index has their score increased by exactly 100 (a missing
prior score counting as 0), and every player without a correct submitted
answer keeps their score unchanged. -/
theorem nextQuestion_scores_correct (r : Room) (q : Question)
    (hq : r.quiz.questions.get? r.currentIndex = some q) :
    (∀ pid c, (pid, c) ∈ r.answers → c = q.answer →
        scoreOf (nextRoom r) pid = scoreOf r pid + 100) ∧
    (∀ pid, (∀ c, (pid, c) ∈ r.answers → c ≠ q.answer) →
        scoreOf (nextRoom r) pid = scoreOf r pid) := by
  have hrw := nextRoom_eq_of_get r q hq
  have hbase : ∀ pid, scoreOf (nextRoom r) pid =
      scoreOfList ((correctScoreUpdates r q).foldl
        (fun acc pv => setScore acc pv.1 pv.2) r.players) pid := by
    intro pid
    rw [hrw]
    rfl
  constructor
  · intro pid c hmem hc
    rw [hbase pid,
      foldl_setScore_scoreOfList (fun s => scoreOf r s + 100) _
        (correctScoreUpdates_val r q) r.players pid,
      if_pos ((mem_keys_correctScoreUpdates r q pid).mpr ⟨c, hmem, hc⟩)]
  · intro pid hnone
    rw [hbase pid,
      foldl_setScore_scoreOfList (fun s => scoreOf r s + 100) _
        (correctScoreUpdates_val r q) r.players pid,
      if_neg (fun h => by
        rcases (mem_keys_correctScoreUpdates r q pid).mp h with ⟨c, hmem, hc⟩
        exact hnone c hmem hc)]
    rfl

/-- Two-player room used to exercise the scoring theorem: the active
question's correct choice is 1; `pA` answered 1, `pB` answered 0. -/
def c1Question : Question :=
  { qid := 1, text := "x", choices := ["a", "b"], answer := 1, time := 10 }

/-- Concrete room for the scoring witness. -/
def c1Room : Room :=
  { metaTitle := "t"
    quiz := { id := "qz", title := "t", questions := [c1Question] }
    state := QState.question
    currentIndex := 0
    players := [("pA", { name := "Ana", score := 0, connected := true }),
                ("pB", { name := "Bob", score := 50, connected := true })]
    answers := [("pA", 1), ("pB", 0)] }

/-- Witness for the scoring theorem on `c1Room`: the correct answerer
gains exactly 100, the incorrect one is untouched. -/
theorem nextQuestion_scores_correct_witness :
    scoreOf (nextRoom c1Room) "pA" = scoreOf c1Room "pA" + 100 ∧
    scoreOf (nextRoom c1Room) "pB" = scoreOf c1Room "pB" := by
  have h := nextQuestion_scores_correct c1Room c1Question (by rfl)
  refine ⟨h.1 "pA" 1 (by decide) rfl, h.2 "pB" ?_⟩
  intro c hc
  simp only [c1Room, List.mem_cons, List.not_mem_nil, or_false, Prod.mk.injEq] at hc
  rcases hc with ⟨h1, h2⟩ | ⟨h1, h2⟩
  · exact absurd h1 (by decide)
  · subst h2
    decide

/-- C8: calling `nextQuestion` on the last question writes
`state = "finished"`, `currentIndex = questions.length`, and clears the
answers map. -/
theorem nextQuestion_last_finishes (r : Room)
    (h0 : r.quiz.questions ≠ [])
    (h1 : r.currentIndex = r.quiz.questions.length - 1) :
    (nextQuestionUpdates r).isSome = true ∧
    (nextRoom r).state = QState.finished ∧
    (nextRoom r).currentIndex = r.quiz.questions.length ∧
    (nextRoom r).answers = [] := by
  have hlen : 0 < r.quiz.questions.length := List.length_pos.mpr h0
  have hlt : r.currentIndex < r.quiz.questions.length := by omega
  have hq := List.get?_eq_get hlt
  have hrw := nextRoom_eq_of_get r _ hq
  refine ⟨?_, ?_, ?_, ?_⟩
  · unfold nextQuestionUpdates
    rw [hq]
    rfl
  · rw [hrw]
    simp only []
    rw [if_pos (by omega)]
  · rw [hrw]
    simp only []
    omega
  · rw [hrw]

/-- Witness room for the end-of-quiz theorem: one question, index 0. -/
def c8Room : Room :=
  { metaTitle := "t"
    quiz := { id := "qz", title := "t", questions := [c1Question] }
    state := QState.question
    currentIndex := 0
    players := []
    answers := [("pA", 0)] }

/-- Witness: advancing `c8Room` from its only question finishes the quiz. -/
theorem nextQuestion_last_finishes_witness :
    (nextQuestionUpdates c8Room).isSome = true ∧
    (nextRoom c8Room).state = QState.finished ∧
    (nextRoom c8Room).currentIndex = c8Room.quiz.questions.length ∧
    (nextRoom c8Room).answers = [] :=
  nextQuestion_last_finishes c8Room (by decide) (by decide)

/-- C9: the update written by `nextQuestion` leaves the quiz definition,
the room meta, every existing player's name and connected flag, and the
score of every player without a correct submitted answer untouched. -/
theorem nextQuestion_frame (r : Room) (q : Question)
    (hq : r.quiz.questions.get? r.currentIndex = some q) :
    (nextRoom r).quiz = r.quiz ∧
    (nextRoom r).metaTitle = r.metaTitle ∧
    (∀ pid p, lookupKey pid r.players = some p →
      ∃ p', lookupKey pid (nextRoom r).players = some p' ∧
        p'.name = p.name ∧ p'.connected = p.connected) ∧
    (∀ pid, (∀ c, (pid, c) ∈ r.answers → c ≠ q.answer) →
      scoreOf (nextRoom r) pid = scoreOf r pid) := by
  have hrw := nextRoom_eq_of_get r q hq
  refine ⟨by rw [hrw], by rw [hrw], ?_, ?_⟩
  · intro pid p hp
    rw [hrw]
    exact foldl_setScore_preserves _ r.players pid p hp
  · intro pid hnone
    have hbase : scoreOf (nextRoom r) pid =
        scoreOfList ((correctScoreUpdates r q).foldl
          (fun acc pv => setScore acc pv.1 pv.2) r.players) pid := by
      rw [hrw]
      rfl
    rw [hbase,
      foldl_setScore_scoreOfList (fun s => scoreOf r s + 100) _
        (correctScoreUpdates_val r q) r.players pid,
      if_neg (fun h => by
        rcases (mem_keys_correctScoreUpdates r q pid).mp h with ⟨c, hmem, hc⟩
        exact hnone c hmem hc)]
    rfl

/-- Witness: on `c1Room`, advancing preserves the quiz, the meta title,
`pB`'s name/connected flag, and `pB`'s score. -/
theorem nextQuestion_frame_witness :
    (nextRoom c1Room).quiz = c1Room.quiz ∧
    (nextRoom c1Room).metaTitle = c1Room.metaTitle ∧
    (∃ p', lookupKey "pB" (nextRoom c1Room).players = some p' ∧
      p'.name = "Bob" ∧ p'.connected = true) ∧
    scoreOf (nextRoom c1Room) "pB" = scoreOf c1Room "pB" := by
  have h := nextQuestion_frame c1Room c1Question (by rfl)
  refine ⟨h.1, h.2.1, ?_, ?_⟩
  · exact h.2.2.1 "pB" { name := "Bob", score := 50, connected := true } (by decide)
  · refine h.2.2.2 "pB" ?_
    intro c hc
    simp only [c1Room, List.mem_cons, List.not_mem_nil, or_false, Prod.mk.injEq] at hc
    rcases hc with ⟨h1, h2⟩ | ⟨h1, h2⟩
    · exact absurd h1 (by decide)
    · subst h2
      decide

/-! ## Lemmas: state and index evolution -/

/-- The state `nextQuestion` leaves behind: unchanged (no write), or one
of `question`/`finished`. -/
theorem nextRoom_state_cases (r : Room) :
    (nextRoom r).state = r.state ∨ (nextRoom r).state = QState.question ∨
      (nextRoom r).state = QState.finished := by
  cases hq : r.quiz.questions.get? r.currentIndex with
  | some q =>
      rw [nextRoom_eq_of_get r q hq]
      by_cases hlen : r.quiz.questions.length ≤ r.currentIndex + 1
      · right; right; simp [hlen]
      · right; left; simp [hlen]
  | none =>
      cases ha : r.answers.isEmpty with
      | true =>
          rw [nextRoom_eq_of_none_empty r hq ha]
          by_cases hlen : r.quiz.questions.length ≤ r.currentIndex + 1
          · right; right; simp [hlen]
          · right; left; simp [hlen]
      | false =>
          rw [nextRoom_eq_of_none_nonempty r hq ha]
          left; rfl

/-- Invariant of every reachable room: once the state tag is `finished`,
the current index is at least the number of questions. -/
theorem reachable_finished_index {r : Room} (h : Reachable r) :
    r.state = QState.finished → r.quiz.questions.length ≤ r.currentIndex := by
  induction h with
  | created => intro hs; exact absurd hs (by decide)
  | start _ _ => intro hs; exact absurd hs (by simp [startQuizRoom, startQuizUpdates, applyBatch, applyUpdate])
  | next hr ih =>
      rename_i r'
      intro hs
      cases hq : r'.quiz.questions.get? r'.currentIndex with
      | some q =>
          rw [nextRoom_eq_of_get r' q hq] at hs ⊢
          by_cases hlen : r'.quiz.questions.length ≤ r'.currentIndex + 1
          · simpa using hlen
          · rw [if_neg hlen] at hs
            simp at hs
      | none =>
          have hle : r'.quiz.questions.length ≤ r'.currentIndex := List.get?_eq_none.mp hq
          cases ha : r'.answers.isEmpty with
          | true =>
              rw [nextRoom_eq_of_none_empty r' hq ha] at hs ⊢
              simpa using Nat.le_succ_of_le hle
          | false =>
              rw [nextRoom_eq_of_none_nonempty r' hq ha] at hs ⊢
              exact ih hs

/-- C2 (amended): on every reachable room, `nextQuestion` never lowers
the state tag in the order lobby → question → finished, `startQuiz`
applied in the lobby moves it forward, and `createRoom` starts at lobby.
(`startQuiz` applied outside the lobby can move a finished room back to
`question`; see the counterexample.) -/
theorem room_state_forward (r : Room) (h : Reachable r) :
    stateRank r.state ≤ stateRank (nextRoom r).state ∧
    (r.state = QState.lobby →
      stateRank r.state ≤ stateRank (startQuizRoom r).state) ∧
    createRoomRoom.state = QState.lobby := by
  refine ⟨?_, ?_, rfl⟩
  · cases hstate : r.state with
    | lobby => exact Nat.zero_le _
    | question =>
        rcases nextRoom_state_cases r with hc | hc | hc <;> rw [hc]
        · rw [hstate]
        · exact Nat.le_of_lt (by decide)
    | finished =>
        have hfin := reachable_finished_index h hstate
        cases hq : r.quiz.questions.get? r.currentIndex with
        | some q =>
            rcases List.get?_eq_some.mp hq with ⟨hlt, _⟩
            exact absurd hlt (by omega)
        | none =>
            cases ha : r.answers.isEmpty with
            | true =>
                rw [nextRoom_eq_of_none_empty r hq ha]
                have hle : r.quiz.questions.length ≤ r.currentIndex + 1 :=
                  Nat.le_succ_of_le hfin
                simp [hle]
            | false =>
                rw [nextRoom_eq_of_none_nonempty r hq ha, hstate]
  · intro hs
    rw [hs]
    exact Nat.zero_le _

/-- Witness: the forward theorem applied to the freshly created room. -/
theorem room_state_forward_witness :
    stateRank createRoomRoom.state ≤ stateRank (nextRoom createRoomRoom).state ∧
    (createRoomRoom.state = QState.lobby →
      stateRank createRoomRoom.state ≤ stateRank (startQuizRoom createRoomRoom).state) ∧
    createRoomRoom.state = QState.lobby :=
  room_state_forward createRoomRoom Reachable.created

/-- Iterating `nextQuestion` keeps a room reachable. -/
theorem reachable_iterate (n : Nat) {r : Room} (h : Reachable r) :
    Reachable (nextRoom^[n] r) := by
  induction n generalizing r with
  | zero => simpa using h
  | succ n ih =>
      rw [Function.iterate_succ_apply]
      exact ih (Reachable.next h)

/-- The room obtained by creating a room and advancing through all 15
sample questions: its state tag is `finished`. -/
def finishedRoom : Room := nextRoom^[15] createRoomRoom

/-- C2 counterexample: `finishedRoom` is reachable and in state
`finished`, yet `startQuiz` (whose button stays enabled for the host)
writes `state = "question"`, moving the state tag backward. -/
theorem startQuiz_moves_finished_back :
    Reachable finishedRoom ∧ finishedRoom.state = QState.finished ∧
    (startQuizRoom finishedRoom).state = QState.question ∧
    stateRank (startQuizRoom finishedRoom).state < stateRank finishedRoom.state := by
  refine ⟨reachable_iterate 15 Reachable.created, ?_, rfl, ?_⟩ <;> decide

/-- C3 (amended): `nextQuestion` never writes a `currentIndex` smaller
than the room's current one (it always writes `idx + 1`, or nothing),
while `startQuiz` always resets `currentIndex` to 0. -/
theorem nextQuestion_index_monotone (r : Room) :
    r.currentIndex ≤ (nextRoom r).currentIndex ∧
    (startQuizRoom r).currentIndex = 0 := by
  refine ⟨?_, rfl⟩
  cases hq : r.quiz.questions.get? r.currentIndex with
  | some q =>
      rw [nextRoom_eq_of_get r q hq]
      exact Nat.le_succ _
  | none =>
      cases ha : r.answers.isEmpty with
      | true =>
          rw [nextRoom_eq_of_none_empty r hq ha]
          exact Nat.le_succ _
      | false =>
          rw [nextRoom_eq_of_none_nonempty r hq ha]

/-- Reachable room sitting on question index 1. -/
def c3Room : Room := nextRoom createRoomRoom

/-- C3 counterexample: from the reachable room at index 1, `startQuiz`
writes `currentIndex = 0`, a value smaller than the room's current one. -/
theorem startQuiz_decreases_index :
    Reachable c3Room ∧ c3Room.currentIndex = 1 ∧
    (startQuizRoom c3Room).currentIndex < c3Room.currentIndex := by
  refine ⟨Reachable.next Reachable.created, ?_, ?_⟩ <;> decide

/-! ## Lemmas: answer writes -/

/-- Writing `answers/<k> = v` makes reading `k` give `v`. -/
theorem lookupKey_dbSet_same (m : List (String × Nat)) (k : String) (v : Nat) :
    lookupKey k (dbSet m k v) = some v := by
  induction m with
  | nil => simp [dbSet, lookupKey]
  | cons hd tl ih =>
      obtain ⟨k', v'⟩ := hd
      by_cases hk : k' = k
      · subst hk
        simp [dbSet, lookupKey]
      · simp [dbSet, lookupKey, hk, ih]

/-- Writing `answers/<k>` does not touch any other key. -/
theorem lookupKey_dbSet_other (m : List (String × Nat)) (k k' : String) (v : Nat)
    (h : k ≠ k') : lookupKey k' (dbSet m k v) = lookupKey k' m := by
  induction m with
  | nil => simp [dbSet, lookupKey, h]
  | cons hd tl ih =>
      obtain ⟨k'', v''⟩ := hd
      by_cases hk : k'' = k
      · subst hk
        simp [dbSet, lookupKey, h]
      · simp [dbSet, lookupKey, hk, ih]

/-- A key that is absent has no entries. -/
theorem countKey_eq_zero_of_not_mem (m : List (String × α)) (k : String)
    (h : k ∉ m.map Prod.fst) : countKey k m = 0 := by
  induction m with
  | nil => rfl
  | cons hd tl ih =>
      obtain ⟨k', v'⟩ := hd
      simp only [List.map_cons, List.mem_cons] at h
      push_neg at h
      have h1 : ¬k' = k := fun hk => h.1 hk.symm
      simp [countKey, h1, ih h.2]

/-- Keys after a write are the written key or old keys. -/
theorem mem_keys_dbSet_sub (m : List (String × Nat)) (k x : String) (v : Nat)
    (h : x ∈ (dbSet m k v).map Prod.fst) : x = k ∨ x ∈ m.map Prod.fst := by
  induction m with
  | nil => simpa [dbSet] using h
  | cons hd tl ih =>
      obtain ⟨k', v'⟩ := hd
      by_cases hk : k' = k
      · subst hk
        simpa [dbSet] using h
      · simp only [dbSet, if_neg hk, List.map_cons, List.mem_cons] at h
        rcases h with h | h
        · subst h; right; simp
        · rcases ih h with h | h
          · exact Or.inl h
          · right; simp [h]

/-- A write preserves key uniqueness. -/
theorem nodup_keys_dbSet (m : List (String × Nat)) (k : String) (v : Nat)
    (h : (m.map Prod.fst).Nodup) : ((dbSet m k v).map Prod.fst).Nodup := by
  induction m with
  | nil => simp [dbSet]
  | cons hd tl ih =>
      obtain ⟨k', v'⟩ := hd
      simp only [List.map_cons, List.nodup_cons] at h
      by_cases hk : k' = k
      · subst hk
        simpa [dbSet] using h
      · simp only [dbSet, if_neg hk, List.map_cons, List.nodup_cons]
        refine ⟨fun hmem => ?_, ih h.2⟩
        rcases mem_keys_dbSet_sub tl k k' v hmem with h' | h'
        · exact hk h'
        · exact h.1 h'

/-- On a duplicate-free map the written key ends with exactly one entry. -/
theorem countKey_dbSet_same (m : List (String × Nat)) (k : String) (v : Nat)
    (h : (m.map Prod.fst).Nodup) : countKey k (dbSet m k v) = 1 := by
  induction m with
  | nil => simp [dbSet, countKey]
  | cons hd tl ih =>
      obtain ⟨k', v'⟩ := hd
      simp only [List.map_cons, List.nodup_cons] at h
      by_cases hk : k' = k
      · subst hk
        simp [dbSet, countKey, countKey_eq_zero_of_not_mem tl k' h.1]
      · simp [dbSet, countKey, hk, ih h.2]

/-- C6: a second `submitAnswer` write for the same player overwrites the
entry at `answers/<playerId>`: the map keeps exactly one entry for that
player (holding the second choice) and every other player's entry is
untouched. -/
theorem answers_overwrite (m : List (String × Nat)) (pid : String) (c1 c2 : Nat)
    (h : (m.map Prod.fst).Nodup) :
    lookupKey pid (dbSet (dbSet m pid c1) pid c2) = some c2 ∧
    countKey pid (dbSet (dbSet m pid c1) pid c2) = 1 ∧
    ∀ pid', pid' ≠ pid → lookupKey pid' (dbSet (dbSet m pid c1) pid c2) = lookupKey pid' m := by
  refine ⟨lookupKey_dbSet_same _ pid c2,
    countKey_dbSet_same _ pid c2 (nodup_keys_dbSet m pid c1 h), fun pid' hne => ?_⟩
  rw [lookupKey_dbSet_other _ pid pid' c2 (fun hh => hne hh.symm),
    lookupKey_dbSet_other m pid pid' c1 (fun hh => hne hh.symm)]

/-- Witness: overwriting `p1`'s answer 0 with 2 in a two-player answers map. -/
theorem answers_overwrite_witness :
    lookupKey "p1" (dbSet (dbSet [("p1", 0), ("p2", 3)] "p1" 0) "p1" 2) = some 2 ∧
    countKey "p1" (dbSet (dbSet [("p1", 0), ("p2", 3)] "p1" 0) "p1" 2) = 1 ∧
    ∀ pid', pid' ≠ "p1" →
      lookupKey pid' (dbSet (dbSet [("p1", 0), ("p2", 3)] "p1" 0) "p1" 2) =
        lookupKey pid' [("p1", 0), ("p2", 3)] := by
  have h := answers_overwrite [("p1", 0), ("p2", 3)] "p1" 0 2 (by decide)
  exact ⟨h.1, h.2.1, h.2.2⟩

/-! ## C5 and C7 -/

/-- C5 counterexample: in the quiz client of `src/unnamed/part_001`,
whose `submitAnswer` has no lock and whose choice buttons are never
disabled, a call made while the local answer flag is already non-null
(`some 0`) is not ignored: it overwrites the database entry and the
local flag. -/
theorem submitAnswerV1_second_click_not_ignored :
    submitAnswerV1 true "R1" "p1" (some 0) [("p1", 0)] 2 = (some 2, [("p1", 2)]) ∧
    (some 2 : Option Nat) ≠ some 0 := by
  constructor
  · rfl
  · decide

/-- C5 (amended): in the `src/src/App.jsx` / `part_000` clients,
`submitAnswer` called while the local answer flag is non-null returns
immediately: it writes nothing to the answers map and changes no local
state.  The `part_001` client variant has no such lock. -/
theorem submitAnswer_locked (inited : Bool) (roomId playerId : String)
    (localAnswer : Option Nat) (answers : List (String × Nat)) (choiceIndex : Nat)
    (h : localAnswer ≠ none) :
    submitAnswer inited roomId playerId localAnswer answers choiceIndex =
      (localAnswer, answers) := by
  simp [submitAnswer, h]

/-- Witness: a second click on choice 2 after choice 0 was locked in. -/
theorem submitAnswer_locked_witness :
    submitAnswer true "R1" "p1" (some 0) [("p1", 0)] 2 = (some 0, [("p1", 0)]) :=
  submitAnswer_locked true "R1" "p1" (some 0) [("p1", 0)] 2 (by decide)

/-- C7 counterexample: in the quiz client of `src/unnamed/part_001`,
`createRoom` has no `try`/`catch`, so a write failure escapes the
operation uncaught (and its `init` likewise propagates an initialization
failure), with no console log and no alert. -/
theorem createRoomV1_failure_escapes :
    createRoomV1 { importFails := false, writeFails := true } true =
      Except.error "set failed" ∧
    initV1 { importFails := true, writeFails := false } =
      Except.error "Firebase init error" := by
  exact ⟨rfl, rfl⟩

/-- C7 (amended): in `src/src/App.jsx` (and `part_000`) every failure of
`init`, `createRoom`, `joinRoom`, `startQuiz` and `nextQuestion` is
caught inside the operation and produces a console log or alert; no
exception escapes.  The quiz client in `part_001` lacks this protection. -/
theorem app_ops_catch_failures (w : FbWorld) (inited hasRoomData : Bool)
    (roomId code name : String) :
    (match initApp w with
      | Except.ok _ => true
      | Except.error _ => false) = true ∧
    caught (createRoomApp w inited) = true ∧
    caught (joinRoomApp w inited code name) = true ∧
    caught (startQuizApp w inited roomId) = true ∧
    caught (nextQuestionApp w inited roomId hasRoomData) = true ∧
    (w.importFails = true → initApp w = Except.ok (false, [Report.consoleLog "Firebase init error"])) ∧
    (w.writeFails = true → inited = true →
      createRoomApp w inited = Except.ok [Report.consoleLog "createRoom error"]) := by
  refine ⟨?_, ?_, ?_, ?_, ?_, ?_, ?_⟩
  · unfold initApp
    split_ifs <;> rfl
  · unfold createRoomApp caught
    split_ifs <;> rfl
  · unfold joinRoomApp caught
    split_ifs <;> rfl
  · unfold startQuizApp caught
    split_ifs <;> rfl
  · unfold nextQuestionApp caught
    split_ifs <;> rfl
  · intro hw
    simp [initApp, hw]
  · intro hw hi
    simp [createRoomApp, hw, hi]

/-- Witness: the catch-all theorem at a failing write world. -/
theorem app_ops_catch_failures_witness :
    caught (createRoomApp { importFails := false, writeFails := true } true) = true ∧
    createRoomApp { importFails := false, writeFails := true } true =
      Except.ok [Report.consoleLog "createRoom error"] := by
  have h := app_ops_catch_failures { importFails := false, writeFails := true }
    true true "R1" "C1" "N1"
  exact ⟨h.2.1, h.2.2.2.2.2.2 rfl rfl⟩

/-! ## Lemmas: BlocksKids grid walk -/

/-- The `repeat` loop never changes the robot's cell: each iteration
computes a destination and throws it away. -/
theorem repeatLoop_eq (prevCmd : PCmd) (n pos : Nat) :
    repeatLoop prevCmd n pos = pos := by
  induction n with
  | zero => rfl
  | succ n ih => simp [repeatLoop, ih]

/-- One executed command keeps the cell on the 5×5 grid. -/
theorem execSingleCmdPos_lt (cmd : PCmd) (pos : Nat) (h : pos < rows * cols) :
    execSingleCmdPos cmd pos < rows * cols := by
  simp only [rows, cols] at h ⊢
  cases cmd <;> simp only [execSingleCmdPos, rows, cols] <;> omega

/-- One driver step of `part_001`'s executor keeps the cell on the grid. -/
theorem stepV1_fst_lt (st : Nat × Option PCmd) (cmd : PCmd)
    (h : st.1 < rows * cols) : (stepV1 st cmd).1 < rows * cols := by
  obtain ⟨pos, prev⟩ := st
  cases cmd
  · exact execSingleCmdPos_lt PCmd.forward pos h
  · exact execSingleCmdPos_lt PCmd.back pos h
  · exact execSingleCmdPos_lt PCmd.left pos h
  · exact execSingleCmdPos_lt PCmd.right pos h
  · exact execSingleCmdPos_lt PCmd.jump pos h
  · exact execSingleCmdPos_lt PCmd.wait pos h
  · cases prev
    · simpa [stepV1] using h
    · simpa [stepV1, repeatLoop_eq] using h

/-- Every cell in `part_001`'s execution trace stays on the grid. -/
theorem scanl_stepV1_bound (cmds : List PCmd) :
    ∀ st : Nat × Option PCmd, st.1 < rows * cols →
      ∀ p ∈ (cmds.scanl stepV1 st).map Prod.fst, p < rows * cols := by
  induction cmds with
  | nil =>
      intro st h p hp
      simp only [List.scanl, List.map_cons, List.map_nil, List.mem_singleton] at hp
      subst hp
      exact h
  | cons c cs ih =>
      intro st h p hp
      simp only [List.scanl, List.map_cons, List.mem_cons] at hp
      rcases hp with rfl | hp
      · exact h
      · exact ih (stepV1 st c) (stepV1_fst_lt st c h) p hp

/-- Every cell in `part_003`'s execution trace stays on the grid. -/
theorem scanl_v3_bound (cmds : List PCmd) :
    ∀ pos : Nat, pos < rows * cols →
      ∀ p ∈ cmds.scanl (fun posIndex cmd => execSingleCmdPos cmd posIndex) pos,
        p < rows * cols := by
  induction cmds with
  | nil =>
      intro pos h p hp
      simp only [List.scanl, List.mem_singleton] at hp
      subst hp
      exact h
  | cons c cs ih =>
      intro pos h p hp
      simp only [List.scanl, List.mem_cons] at hp
      rcases hp with rfl | hp
      · exact h
      · exact ih _ (execSingleCmdPos_lt c pos h) p hp

/-- C4: for every command list and start cell on the 5×5 grid, both
interpreters keep the robot's cell on the grid after every executed
command; each single command changes the row by at most 1 and the column
by at most 1; and a move past an edge clamps to the boundary row or
column. -/
theorem blockskids_grid_invariant (cmds : List PCmd) (start pos : Nat) (cmd : PCmd)
    (hs : start < rows * cols) (hp : pos < rows * cols) :
    (∀ p ∈ execTraceV1 cmds start, p < rows * cols) ∧
    (∀ p ∈ execTraceV3 cmds start, p < rows * cols) ∧
    (rowOf (execSingleCmdPos cmd pos) ≤ rowOf pos + 1 ∧
     rowOf pos ≤ rowOf (execSingleCmdPos cmd pos) + 1) ∧
    (colOf (execSingleCmdPos cmd pos) ≤ colOf pos + 1 ∧
     colOf pos ≤ colOf (execSingleCmdPos cmd pos) + 1) ∧
    (rowOf pos = 0 → rowOf (execSingleCmdPos PCmd.forward pos) = 0) ∧
    (rowOf pos = rows - 1 → rowOf (execSingleCmdPos PCmd.back pos) = rows - 1) ∧
    (colOf pos = 0 → colOf (execSingleCmdPos PCmd.left pos) = 0) ∧
    (colOf pos = cols - 1 → colOf (execSingleCmdPos PCmd.right pos) = cols - 1) := by
  refine ⟨scanl_stepV1_bound cmds (start, none) hs, scanl_v3_bound cmds start hs,
    ?_, ?_, ?_, ?_, ?_, ?_⟩
  · simp only [rowOf, rows, cols] at *
    cases cmd <;> simp only [execSingleCmdPos, rows, cols] <;> omega
  · simp only [colOf, rows, cols] at *
    cases cmd <;> simp only [execSingleCmdPos, rows, cols] <;> omega
  · simp only [rowOf, rows, cols, execSingleCmdPos] at *
    omega
  · simp only [rowOf, rows, cols, execSingleCmdPos] at *
    omega
  · simp only [colOf, rows, cols, execSingleCmdPos] at *
    omega
  · simp only [colOf, rows, cols, execSingleCmdPos] at *
    omega

/-- Witness: the grid invariant on a concrete program from the centre
cell, with the single-command parts checked at the bottom-right corner. -/
theorem blockskids_grid_invariant_witness :
    (∀ p ∈ execTraceV1 [PCmd.forward, PCmd.left, PCmd.repeat 3, PCmd.back] 12,
      p < rows * cols) ∧
    (∀ p ∈ execTraceV3 [PCmd.forward, PCmd.left, PCmd.repeat 3, PCmd.back] 12,
      p < rows * cols) ∧
    (rowOf (execSingleCmdPos PCmd.right 24) ≤ rowOf 24 + 1 ∧
     rowOf 24 ≤ rowOf (execSingleCmdPos PCmd.right 24) + 1) ∧
    (colOf (execSingleCmdPos PCmd.right 24) ≤ colOf 24 + 1 ∧
     colOf 24 ≤ colOf (execSingleCmdPos PCmd.right 24) + 1) ∧
    (rowOf 24 = 0 → rowOf (execSingleCmdPos PCmd.forward 24) = 0) ∧
    (rowOf 24 = rows - 1 → rowOf (execSingleCmdPos PCmd.back 24) = rows - 1) ∧
    (colOf 24 = 0 → colOf (execSingleCmdPos PCmd.left 24) = 0) ∧
    (colOf 24 = cols - 1 → colOf (execSingleCmdPos PCmd.right 24) = cols - 1) :=
  blockskids_grid_invariant [PCmd.forward, PCmd.left, PCmd.repeat 3, PCmd.back]
    12 24 PCmd.right (by decide) (by decide)

/-- C10: evaluation exposing the repeat defect in `part_001`.  From the
centre cell 12, `[forward, repeat 2]` ends at cell 7 — the repeat moved
nothing — whereas actually applying `forward` two more times from cell 7
(what the executor's own comment promises) would end at cell 2; a repeat
in first position also leaves the cell unchanged. -/
theorem repeat_discards_position :
    runCmdsV1 [PCmd.forward, PCmd.repeat 2] 12 = 7 ∧
    execSingleCmdPos PCmd.forward
      (execSingleCmdPos PCmd.forward (runCmdsV1 [PCmd.forward] 12)) = 2 ∧
    (7 : Nat) ≠ 2 ∧
    runCmdsV1 [PCmd.repeat 3] 12 = 12 := by
  decide
